import Mathlib

/-!
Verification of the live-bidding platform's bid admission and broadcast
subsystem, shallowly embedded from `src/server/index.js`.

JavaScript values that matter to the admission logic are embedded as:
* item ids and the `itemId` of a request: `BidKey` (a JS number or string,
  compared with strict equality `===`, which never equates values of
  different types);
* bid amounts: `Int` (the JS numbers exercised by the endpoints);
* the mutable item array: `List Item`, threaded explicitly through each
  operation;
* `async`/`await` scheduling for the spinlock: a small-step transition
  system `Step` whose atomic steps are the synchronous segments between
  `await` points of `placeBid`.
-/

/-- A JS value used as an item id / request `itemId`: number or string.
Structural equality on this type is JS strict equality (`===`): a number is
never `===` a string. -/
inductive BidKey where
  | num (n : Int)
  | str (s : String)
deriving DecidableEq, Repr

/-- One element of the `auctionItems` array. -/
structure Item where
  id : BidKey
  title : String
  currentBid : Int
  highestBidder : Option String
  auctionEndsAt : Int
  image : String
deriving DecidableEq, Repr

/-- The value resolved by `placeBid`: `{success:true, item}` or
`{success:false, error}`. -/
inductive BidResult where
  | accepted (item : Item)
  | rejected (error : String)
deriving DecidableEq, Repr

/-- `auctionItems.find(i => i.id === itemId)`: first item whose id is
strictly equal to the key. -/
def findItem : List Item → BidKey → Option Item
  | [], _ => none
  | i :: rest, k => if i.id = k then some i else findItem rest k

/-- The in-place mutation `item.currentBid = newBid; item.highestBidder =
bidderName` of the item found by `find`: updates the first item whose id
matches, leaves everything else untouched. -/
def updateFirst : List Item → BidKey → Int → String → List Item
  | [], _, _, _ => []
  | i :: rest, k, amt, name =>
    if i.id = k then
      { i with currentBid := amt, highestBidder := some name } :: rest
    else
      i :: updateFirst rest k amt name

/-- The body of `placeBid(itemId, newBid, bidderName)` from
`src/server/index.js` (the critical section, after the spinlock has been
acquired), as a function from the current `auctionItems` array to the
resolved result together with the new array:

* `find` the item; if absent, `{success:false, error:'Item not found'}`;
* if `newBid <= item.currentBid`, reject with the message interpolating
  the current bid that was compared;
* otherwise overwrite `currentBid` and `highestBidder` and return
  `{success:true, item:{...item}}`, a snapshot of the mutated item. -/
def placeBid (items : List Item) (itemId : BidKey) (newBid : Int)
    (bidderName : String) : BidResult × List Item :=
  match findItem items itemId with
  | none => (BidResult.rejected "Item not found", items)
  | some item =>
    if newBid ≤ item.currentBid then
      (BidResult.rejected
        ("Bid must be higher than current bid of $" ++ toString item.currentBid),
       items)
    else
      (BidResult.accepted
        { item with currentBid := newBid, highestBidder := some bidderName },
       updateFirst items itemId newBid bidderName)

/-- The `auctionItems` seed catalog (`Date.now()` at seeding time is the
parameter `now`). -/
def seedItems (now : Int) : List Item :=
  [ { id := BidKey.num 1, title := "Vintage Camera", currentBid := 100,
      highestBidder := none, auctionEndsAt := now + 900000,
      image := "https://images.unsplash.com/photo-1516035069371-29a1b244cc32" },
    { id := BidKey.num 2, title := "Rare Painting", currentBid := 500,
      highestBidder := none, auctionEndsAt := now + 900000,
      image := "https://images.unsplash.com/photo-1579783902614-a3fb3927b6a5" },
    { id := BidKey.num 3, title := "Antique Vase", currentBid := 250,
      highestBidder := none, auctionEndsAt := now + 900000,
      image := "https://images.unsplash.com/photo-1618220179428-22790b461013" },
    { id := BidKey.num 4, title := "Classic Car Model", currentBid := 1000,
      highestBidder := none, auctionEndsAt := now + 900000,
      image := "https://images.unsplash.com/photo-1605901309584-818e25960b8f" } ]

/-- `GET /api/auctions` (and `GET /items`): respond with the current
`auctionItems` array; the store is not changed by the read. -/
def listAll (items : List Item) : List Item × List Item := (items, items)

/-- An item found under key `k` has id `k` (`find` tests `i.id === itemId`). -/
theorem findItem_some_id (k : BidKey) :
    ∀ items it, findItem items k = some it → it.id = k := by
  intro items
  induction items with
  | nil => intro it h; simp [findItem] at h
  | cons i rest ih =>
    intro it h
    by_cases hik : i.id = k
    · simp [findItem, hik] at h; rw [← h]; exact hik
    · simp [findItem, hik] at h; exact ih it h

/-- After the in-place mutation, `find` under the same key returns the item
with both bid fields overwritten. -/
theorem findItem_updateFirst_self (k : BidKey) (a : Int) (n : String) :
    ∀ items it, findItem items k = some it →
      findItem (updateFirst items k a n) k
        = some { it with currentBid := a, highestBidder := some n } := by
  intro items
  induction items with
  | nil => intro it h; simp [findItem] at h
  | cons i rest ih =>
    intro it h
    by_cases hik : i.id = k
    · simp [findItem, hik] at h
      subst h
      simp [updateFirst, findItem, hik]
    · simp [findItem, updateFirst, hik] at h ⊢
      exact ih it h

/-- Mutating under key `k2` does not move or change the item `find` returns
under a different key `k`. -/
theorem findItem_updateFirst_ne (k k2 : BidKey) (a : Int) (n : String)
    (hne : k2 ≠ k) :
    ∀ items, findItem (updateFirst items k2 a n) k = findItem items k := by
  intro items
  induction items with
  | nil => simp [updateFirst]
  | cons i rest ih =>
    by_cases hik : i.id = k2
    · have hik2 : ¬ i.id = k := by rw [hik]; exact hne
      simp [updateFirst, findItem, hik, hik2, hne]
    · by_cases hk : i.id = k
      · simp [updateFirst, findItem, hik, hk, Ne.symm hne]
      · simp [updateFirst, findItem, hik, hk]
        exact ih

/-- Positional characterisation of the in-place mutation: every element is
either untouched, or it is the item `find` returned and only its two bid
fields changed. -/
theorem updateFirst_spec (k : BidKey) (a : Int) (n : String) :
    ∀ items it0, findItem items k = some it0 →
      List.Forall₂ (fun it it2 => it2 = it
          ∨ (it = it0
            ∧ it2 = { it0 with currentBid := a, highestBidder := some n }))
        items (updateFirst items k a n) := by
  intro items
  induction items with
  | nil => intro it0 h; simp [findItem] at h
  | cons i rest ih =>
    intro it0 h
    by_cases hik : i.id = k
    · simp [findItem, hik] at h
      subst h
      simp only [updateFirst, hik, if_true]
      exact List.Forall₂.cons (Or.inr ⟨rfl, rfl⟩)
        (List.forall₂_same.mpr (fun x _ => Or.inl rfl))
    · simp [findItem, hik] at h
      simp only [updateFirst, hik, if_false]
      exact List.Forall₂.cons (Or.inl rfl) (ih it0 h)

/-- C1: `placeBid` rejects with `Item not found` exactly when no item has the
given id, leaving the store untouched; and when the item exists and the
amount strictly exceeds its current bid, it accepts with a snapshot whose
`currentBid` is the submitted amount and whose `highestBidder` is the
submitted name, the store's item being updated to exactly those values. -/
theorem c1_placeBid_admission (items : List Item) (k : BidKey) (a : Int)
    (n : String) :
    (findItem items k = none →
      placeBid items k a n = (BidResult.rejected "Item not found", items))
    ∧ (∀ it, findItem items k = some it → it.currentBid < a →
        (placeBid items k a n).1
            = BidResult.accepted
                { it with currentBid := a, highestBidder := some n }
          ∧ findItem (placeBid items k a n).2 k
            = some { it with currentBid := a, highestBidder := some n }) := by
  constructor
  · intro h
    simp [placeBid, h]
  · intro it hfind hlt
    have hnotle : ¬ a ≤ it.currentBid := not_le.mpr hlt
    refine ⟨by simp [placeBid, hfind, hnotle], ?_⟩
    simp only [placeBid, hfind, hnotle, if_false]
    exact findItem_updateFirst_self k a n items it hfind

/-- Witness for C1 at concrete inputs: id 999 is absent from the seed store
and is rejected; a bid of 150 on item 1 (current bid 100) is accepted and
recorded. -/
theorem c1_placeBid_admission_witness :
    (placeBid (seedItems 0) (BidKey.num 999) 50 "X"
        = (BidResult.rejected "Item not found", seedItems 0))
    ∧ ((placeBid (seedItems 0) (BidKey.num 1) 150 "Alice").1
        = BidResult.accepted
            { id := BidKey.num 1, title := "Vintage Camera", currentBid := 150,
              highestBidder := some "Alice", auctionEndsAt := 900000,
              image := "https://images.unsplash.com/photo-1516035069371-29a1b244cc32" }) := by
  constructor
  · exact (c1_placeBid_admission (seedItems 0) (BidKey.num 999) 50 "X").1
      (by decide)
  · exact ((c1_placeBid_admission (seedItems 0) (BidKey.num 1) 150 "Alice").2
      { id := BidKey.num 1, title := "Vintage Camera", currentBid := 100,
        highestBidder := none, auctionEndsAt := 900000,
        image := "https://images.unsplash.com/photo-1516035069371-29a1b244cc32" }
      (by decide) (by decide)).1

/-- C4: when the item exists and the submitted amount is at most its current
bid, `placeBid` rejects with the `BidTooLow` message interpolating exactly
the current bid it compared against, and returns the store unchanged. -/
theorem c4_bid_too_low (items : List Item) (k : BidKey) (a : Int) (n : String)
    (it : Item) (hfind : findItem items k = some it)
    (hle : a ≤ it.currentBid) :
    placeBid items k a n
      = (BidResult.rejected
          ("Bid must be higher than current bid of $" ++ toString it.currentBid),
         items) := by
  simp [placeBid, hfind, hle]

/-- Witness for C4: bidding 100 on item 1 of the seed store (current bid 100)
is rejected with the message naming $100 and the store is unchanged. -/
theorem c4_bid_too_low_witness :
    placeBid (seedItems 0) (BidKey.num 1) 100 "Bob"
      = (BidResult.rejected "Bid must be higher than current bid of $100",
         seedItems 0) :=
  c4_bid_too_low (seedItems 0) (BidKey.num 1) 100 "Bob"
    { id := BidKey.num 1, title := "Vintage Camera", currentBid := 100,
      highestBidder := none, auctionEndsAt := 900000,
      image := "https://images.unsplash.com/photo-1516035069371-29a1b244cc32" }
    (by decide) (by decide)

/-- C8: every `placeBid` call leaves `id`, `title`, `auctionEndsAt` and
`image` of every item unchanged (positionally), and leaves every item whose
id differs from the submitted key entirely unchanged. -/
theorem c8_frame (items : List Item) (k : BidKey) (a : Int) (n : String) :
    List.Forall₂ (fun it it2 =>
        (it2.id = it.id ∧ it2.title = it.title
          ∧ it2.auctionEndsAt = it.auctionEndsAt ∧ it2.image = it.image)
        ∧ (it.id ≠ k → it2 = it))
      items (placeBid items k a n).2 := by
  have hrefl : List.Forall₂ (fun it it2 =>
      (it2.id = it.id ∧ it2.title = it.title
        ∧ it2.auctionEndsAt = it.auctionEndsAt ∧ it2.image = it.image)
      ∧ (it.id ≠ k → it2 = it)) items items :=
    List.forall₂_same.mpr (fun x _ => ⟨⟨rfl, rfl, rfl, rfl⟩, fun _ => rfl⟩)
  cases hfind : findItem items k with
  | none =>
    have h2 : (placeBid items k a n).2 = items := by simp [placeBid, hfind]
    rw [h2]; exact hrefl
  | some it0 =>
    by_cases hle : a ≤ it0.currentBid
    · have h2 : (placeBid items k a n).2 = items := by simp [placeBid, hfind, hle]
      rw [h2]; exact hrefl
    · have hid : it0.id = k := findItem_some_id k items it0 hfind
      have hspec := updateFirst_spec k a n items it0 hfind
      have : (placeBid items k a n).2 = updateFirst items k a n := by
        simp [placeBid, hfind, hle]
      rw [this]
      refine hspec.imp ?_
      intro it it2 h
      cases h with
      | inl he => exact ⟨by rw [he]; exact ⟨rfl, rfl, rfl, rfl⟩, fun _ => he⟩
      | inr he =>
        rcases he with ⟨h1, h2⟩
        subst h1
        exact ⟨by rw [h2]; exact ⟨rfl, rfl, rfl, rfl⟩,
               fun hne => absurd hid hne⟩

/-- C9: reading the full item list twice with no intervening bid returns
identical snapshots (the read does not change the store). -/
theorem c9_read_idempotent (items : List Item) :
    (listAll (listAll items).2).1 = (listAll items).1 := rfl

/-- A bid request as submitted to `placeBid` by either endpoint, once its
three fields are present. -/
structure Request where
  itemId : BidKey
  amount : Int
  bidderName : String
deriving DecidableEq, Repr

/-- A finite sequence of `placeBid` calls executed back to back (the order
in which the serialized critical sections ran), returning the final store
and the result of each call in order. -/
def runBids : List Item → List Request → List Item × List BidResult
  | items, [] => (items, [])
  | items, r :: rest =>
    let step := placeBid items r.itemId r.amount r.bidderName
    let next := runBids step.2 rest
    (next.1, step.1 :: next.2)

/-- The `currentBid` values carried by the accepted snapshots of a given
item, in execution order. -/
def acceptedBidsOn (k : BidKey) : List BidResult → List Int
  | [] => []
  | BidResult.accepted it :: rest =>
    if it.id = k then it.currentBid :: acceptedBidsOn k rest
    else acceptedBidsOn k rest
  | BidResult.rejected _ :: rest => acceptedBidsOn k rest

/-- Floor invariant of a run: an absent item never produces accepted bids,
and for a present item, its current bid followed by the accepted bids of
the run forms a strictly increasing chain. -/
theorem runBids_chain (k : BidKey) :
    ∀ (reqs : List Request) (items : List Item),
      (findItem items k = none →
        acceptedBidsOn k (runBids items reqs).2 = [])
      ∧ (∀ it, findItem items k = some it →
          List.Chain' (fun x y => x < y)
            (it.currentBid :: acceptedBidsOn k (runBids items reqs).2)) := by
  intro reqs
  induction reqs with
  | nil =>
    intro items
    exact ⟨fun _ => rfl, fun it _ => List.chain'_singleton it.currentBid⟩
  | cons r rest ih =>
    intro items
    cases hfind : findItem items r.itemId with
    | none =>
      have hpb : placeBid items r.itemId r.amount r.bidderName
          = (BidResult.rejected "Item not found", items) := by
        simp [placeBid, hfind]
      have hrun : (runBids items (r :: rest)).2
          = BidResult.rejected "Item not found" :: (runBids items rest).2 := by
        simp [runBids, hpb]
      rw [hrun]
      exact ⟨fun h => (ih items).1 h, fun it h => (ih items).2 it h⟩
    | some it0 =>
      by_cases hle : r.amount ≤ it0.currentBid
      · have hpb : placeBid items r.itemId r.amount r.bidderName
            = (BidResult.rejected
                ("Bid must be higher than current bid of $"
                  ++ toString it0.currentBid), items) := by
          simp [placeBid, hfind, hle]
        have hrun : (runBids items (r :: rest)).2
            = BidResult.rejected
                ("Bid must be higher than current bid of $"
                  ++ toString it0.currentBid) :: (runBids items rest).2 := by
          simp [runBids, hpb]
        rw [hrun]
        exact ⟨fun h => (ih items).1 h, fun it h => (ih items).2 it h⟩
      · have hid : it0.id = r.itemId := findItem_some_id r.itemId items it0 hfind
        have hpb : placeBid items r.itemId r.amount r.bidderName
            = (BidResult.accepted
                { it0 with currentBid := r.amount,
                           highestBidder := some r.bidderName },
               updateFirst items r.itemId r.amount r.bidderName) := by
          simp [placeBid, hfind, hle]
        have hrun : (runBids items (r :: rest)).2
            = BidResult.accepted
                { it0 with currentBid := r.amount,
                           highestBidder := some r.bidderName }
              :: (runBids (updateFirst items r.itemId r.amount r.bidderName)
                    rest).2 := by
          simp [runBids, hpb]
        rw [hrun]
        by_cases hk : r.itemId = k
        · subst hk
          constructor
          · intro h; rw [h] at hfind; exact Option.noConfusion hfind
          · intro it h
            have hit : it0 = it := by
              rw [hfind] at h
              exact Option.some.inj h
            rw [← hit]
            have hnew := findItem_updateFirst_self r.itemId r.amount
              r.bidderName items it0 hfind
            have htail := (ih (updateFirst items r.itemId r.amount
              r.bidderName)).2 _ hnew
            simp only [acceptedBidsOn, hid, if_true]
            exact List.chain'_cons.mpr ⟨lt_of_not_le hle, htail⟩
        · have hskip : acceptedBidsOn k
              (BidResult.accepted
                { it0 with currentBid := r.amount,
                           highestBidder := some r.bidderName }
                :: (runBids (updateFirst items r.itemId r.amount
                      r.bidderName) rest).2)
              = acceptedBidsOn k
                  (runBids (updateFirst items r.itemId r.amount
                    r.bidderName) rest).2 := by
            simp [acceptedBidsOn, hid, hk]
          rw [hskip]
          have hpres := findItem_updateFirst_ne k r.itemId r.amount
            r.bidderName hk items
          constructor
          · intro h
            exact (ih _).1 (by rw [hpres]; exact h)
          · intro it h
            exact (ih _).2 it (by rw [hpres]; exact h)

/-- C2: along any finite sequence of bids from the seeded store, the
accepted `currentBid` values of any item form a strictly increasing
sequence; and in every single `placeBid` step each item either keeps both
bid fields or has both overwritten at once by the accepted bid (never one
without the other). -/
theorem c2_monotonic_paired (now : Int) (reqs : List Request) (k : BidKey) :
    List.Chain' (fun x y => x < y)
      (acceptedBidsOn k (runBids (seedItems now) reqs).2)
    ∧ ∀ (items : List Item) (k2 : BidKey) (a : Int) (n : String),
        List.Forall₂ (fun it it2 =>
            (it2.currentBid = it.currentBid
              ∧ it2.highestBidder = it.highestBidder)
            ∨ ((placeBid items k2 a n).1 = BidResult.accepted it2
              ∧ it2.currentBid = a ∧ it2.highestBidder = some n))
          items (placeBid items k2 a n).2 := by
  constructor
  · cases hfind : findItem (seedItems now) k with
    | none => rw [(runBids_chain k reqs (seedItems now)).1 hfind]; exact trivial
    | some it => exact ((runBids_chain k reqs (seedItems now)).2 it hfind).tail
  · intro items k2 a n
    have hrefl : List.Forall₂ (fun it it2 =>
        (it2.currentBid = it.currentBid
          ∧ it2.highestBidder = it.highestBidder)
        ∨ ((placeBid items k2 a n).1 = BidResult.accepted it2
          ∧ it2.currentBid = a ∧ it2.highestBidder = some n))
        items items :=
      List.forall₂_same.mpr (fun x _ => Or.inl ⟨rfl, rfl⟩)
    cases hfind : findItem items k2 with
    | none =>
      have h2 : (placeBid items k2 a n).2 = items := by simp [placeBid, hfind]
      rw [h2]; exact hrefl
    | some it0 =>
      by_cases hle : a ≤ it0.currentBid
      · have h2 : (placeBid items k2 a n).2 = items := by
          simp [placeBid, hfind, hle]
        rw [h2]; exact hrefl
      · have h1 : (placeBid items k2 a n).1
            = BidResult.accepted
                { it0 with currentBid := a, highestBidder := some n } := by
          simp [placeBid, hfind, hle]
        have h2 : (placeBid items k2 a n).2
            = updateFirst items k2 a n := by
          simp [placeBid, hfind, hle]
        rw [h2]
        refine (updateFirst_spec k2 a n items it0 hfind).imp ?_
        intro it it2 h
        cases h with
        | inl he => exact Or.inl (by rw [he]; exact ⟨rfl, rfl⟩)
        | inr he =>
          rcases he with ⟨h3, h4⟩
          exact Or.inr ⟨by rw [h1, h4], by rw [h4], by rw [h4]⟩

/-- The body of a bid request as the endpoints receive it
(`req.body` / the socket `data` object): each field may be absent. -/
structure BidBody where
  itemId : Option BidKey
  amount : Option Int
  bidderName : Option String
deriving DecidableEq, Repr

/-- JS truthiness of the extracted `itemId` (`!itemId` is true for a missing
field, the number 0 and the empty string). -/
def truthyKey : Option BidKey → Bool
  | none => false
  | some (BidKey.num m) => m != 0
  | some (BidKey.str s) => s != ""

/-- JS truthiness of the extracted `amount` (`!amount` is true for a missing
field and for 0). -/
def truthyAmount : Option Int → Bool
  | none => false
  | some a => a != 0

/-- JS truthiness of the extracted `bidderName` (`!bidderName` is true for a
missing field and the empty string). -/
def truthyName : Option String → Bool
  | none => false
  | some s => s != ""

/-- A message sent to one connected client over the socket layer. -/
inductive Event where
  | bidUpdate (client : String) (item : Item)
  | bidSuccess (client : String) (item : Item)
  | bidError (client : String) (error : String) (itemId : Option BidKey)
deriving DecidableEq, Repr

/-- The `socket.on('placeBid')` handler: reject non-truthy fields with a
`bidError` carrying only the message (no broadcast); otherwise run
`placeBid` and, on success, `io.emit('bidUpdate')` to every connected
client plus `socket.emit('bidSuccess')` to the originator, or on failure
`socket.emit('bidError')` to the originator with the error and the item id.
The wildcard arm is unreachable: a truthy field is present. -/
def socketPlaceBid (subscribers : List String) (origin : String)
    (items : List Item) (body : BidBody) : List Event × List Item :=
  if truthyKey body.itemId && truthyAmount body.amount
      && truthyName body.bidderName then
    match body.itemId, body.amount, body.bidderName with
    | some k, some a, some n =>
      match placeBid items k a n with
      | (BidResult.accepted item, items2) =>
        (subscribers.map (fun c => Event.bidUpdate c item)
          ++ [Event.bidSuccess origin item], items2)
      | (BidResult.rejected e, items2) =>
        ([Event.bidError origin e (some k)], items2)
    | _, _, _ => ([], items)
  else
    ([Event.bidError origin "Missing required fields" none], items)

/-- The HTTP status/body the `POST /api/bid` route answers with. -/
inductive HttpResponse where
  | ok (item : Item)
  | badRequest (error : String)
deriving DecidableEq, Repr

/-- The `POST /api/bid` route: 400 on non-truthy fields; otherwise run
`placeBid` and, on success, broadcast `bidUpdate` to every connected
client and answer 200 with the result, or answer 400 with the rejection.
The wildcard arm is unreachable: a truthy field is present. -/
def httpBid (subscribers : List String) (items : List Item)
    (body : BidBody) : HttpResponse × List Event × List Item :=
  if truthyKey body.itemId && truthyAmount body.amount
      && truthyName body.bidderName then
    match body.itemId, body.amount, body.bidderName with
    | some k, some a, some n =>
      match placeBid items k a n with
      | (BidResult.accepted item, items2) =>
        (HttpResponse.ok item,
         subscribers.map (fun c => Event.bidUpdate c item), items2)
      | (BidResult.rejected e, items2) =>
        (HttpResponse.badRequest e, [], items2)
    | _, _, _ => (HttpResponse.badRequest "Missing required fields", [], items)
  else
    (HttpResponse.badRequest "Missing required fields", [], items)

/-- Counterexample to C5: the negative amount -5 is truthy, so it passes the
`!amount` input check and reaches `placeBid`, which rejects it as a too-low
bid — not with the `InvalidRequest` message. -/
theorem c5_counterexample :
    socketPlaceBid ["alice"] "alice" (seedItems 0)
        ⟨some (BidKey.num 1), some (-5), some "Mallory"⟩
      = ([Event.bidError "alice" "Bid must be higher than current bid of $100"
            (some (BidKey.num 1))], seedItems 0)
    ∧ "Bid must be higher than current bid of $100"
        ≠ "Missing required fields" := by
  constructor
  · decide
  · decide

/-- C5 (amended): a request with a missing or falsy `itemId`, `amount` or
`bidderName` (this includes a zero amount) is answered synchronously with
the `Missing required fields` error on both endpoints, with no mutation and
no broadcast; but a negative amount passes the falsiness check of both
endpoints and is instead rejected by the admission rule (`Item not found`
or the `BidTooLow` message), still with no mutation and no broadcast on
either endpoint. -/
theorem c5_amended_input_validation (subs : List String) (origin : String)
    (items : List Item) (body : BidBody) :
    (¬ (truthyKey body.itemId && truthyAmount body.amount
          && truthyName body.bidderName) = true →
      socketPlaceBid subs origin items body
        = ([Event.bidError origin "Missing required fields" none], items)
      ∧ httpBid subs items body
        = (HttpResponse.badRequest "Missing required fields", [], items))
    ∧ (∀ k a n, body = ⟨some k, some a, some n⟩ → a < 0 →
        truthyKey (some k) = true → truthyName (some n) = true →
        (∀ it ∈ items, 0 ≤ it.currentBid) →
        ∃ e, socketPlaceBid subs origin items body
            = ([Event.bidError origin e (some k)], items)
          ∧ httpBid subs items body
            = (HttpResponse.badRequest e, [], items)
          ∧ (e = "Item not found"
            ∨ ∃ c : Int, e = "Bid must be higher than current bid of $"
                      ++ toString c)) := by
  constructor
  · intro h
    constructor
    · simp only [socketPlaceBid, if_neg h]
    · simp only [httpBid, if_neg h]
  · intro k a n hbody hneg htk htn hnonneg
    subst hbody
    have hta : truthyAmount (some a) = true := by
      simp [truthyAmount]
      intro h0
      rw [h0] at hneg
      exact absurd hneg (by decide)
    cases hfind : findItem items k with
    | none =>
      refine ⟨"Item not found", ?_, ?_, Or.inl rfl⟩
      · have hpb : placeBid items k a n
            = (BidResult.rejected "Item not found", items) := by
          simp [placeBid, hfind]
        simp [socketPlaceBid, htk, hta, htn, hpb]
      · have hpb : placeBid items k a n
            = (BidResult.rejected "Item not found", items) := by
          simp [placeBid, hfind]
        simp [httpBid, htk, hta, htn, hpb]
    | some it0 =>
      have hmem : it0 ∈ items := by
        clear hnonneg
        induction items with
        | nil => simp [findItem] at hfind
        | cons i rest ih =>
          by_cases hik : i.id = k
          · simp [findItem, hik] at hfind
            exact hfind ▸ List.mem_cons_self i rest
          · simp [findItem, hik] at hfind
            exact List.mem_cons_of_mem i (ih hfind)
      have hle : a ≤ it0.currentBid :=
        le_trans (le_of_lt hneg) (hnonneg it0 hmem)
      have hpb : placeBid items k a n
          = (BidResult.rejected
              ("Bid must be higher than current bid of $"
                ++ toString it0.currentBid), items) := by
        simp [placeBid, hfind, hle]
      refine ⟨"Bid must be higher than current bid of $"
          ++ toString it0.currentBid, ?_, ?_, Or.inr ⟨it0.currentBid, rfl⟩⟩
      · simp [socketPlaceBid, htk, hta, htn, hpb]
      · simp [httpBid, htk, hta, htn, hpb]

/-- Witness for the amended C5 at concrete inputs: a body with a missing
amount is answered with `Missing required fields` and no broadcast on both
endpoints. -/
theorem c5_amended_input_validation_witness :
    socketPlaceBid ["alice"] "alice" (seedItems 0)
        ⟨some (BidKey.num 1), none, some "Alice"⟩
      = ([Event.bidError "alice" "Missing required fields" none], seedItems 0)
    ∧ httpBid ["alice"] (seedItems 0) ⟨some (BidKey.num 1), none, some "Alice"⟩
      = (HttpResponse.badRequest "Missing required fields", [], seedItems 0) :=
  (c5_amended_input_validation ["alice"] "alice" (seedItems 0)
      ⟨some (BidKey.num 1), none, some "Alice"⟩).1 (by decide)

/-- C6: with the three fields present and truthy, an accepted bid makes the
socket handler emit exactly one `bidUpdate` to every connected subscriber
(the originator included) plus exactly one `bidSuccess` to the originator
carrying the same item; a rejected bid makes it emit exactly the single
`bidError` to the originator carrying the error and the item id, and no
broadcast. -/
theorem c6_broadcast_fidelity (subs : List String) (origin : String)
    (items : List Item) (k : BidKey) (a : Int) (n : String)
    (hnd : subs.Nodup) (_ho : origin ∈ subs)
    (htk : truthyKey (some k) = true) (hta : truthyAmount (some a) = true)
    (htn : truthyName (some n) = true) :
    (∀ it items2, placeBid items k a n = (BidResult.accepted it, items2) →
      (socketPlaceBid subs origin items ⟨some k, some a, some n⟩).1
          = subs.map (fun c => Event.bidUpdate c it)
            ++ [Event.bidSuccess origin it]
        ∧ (∀ c, c ∈ subs →
            ((socketPlaceBid subs origin items
                ⟨some k, some a, some n⟩).1.count (Event.bidUpdate c it)) = 1)
        ∧ ((socketPlaceBid subs origin items
              ⟨some k, some a, some n⟩).1.count (Event.bidSuccess origin it))
            = 1)
    ∧ (∀ e items2, placeBid items k a n = (BidResult.rejected e, items2) →
        (socketPlaceBid subs origin items ⟨some k, some a, some n⟩).1
          = [Event.bidError origin e (some k)]) := by
  constructor
  · intro it items2 hpb
    have hE : (socketPlaceBid subs origin items ⟨some k, some a, some n⟩).1
        = subs.map (fun c => Event.bidUpdate c it)
          ++ [Event.bidSuccess origin it] := by
      simp [socketPlaceBid, htk, hta, htn, hpb]
    have hinj : Function.Injective (fun c => Event.bidUpdate c it) := by
      intro x y hxy
      simpa using hxy
    refine ⟨hE, ?_, ?_⟩
    · intro c hc
      rw [hE, List.count_append]
      have h1 : (subs.map (fun c => Event.bidUpdate c it)).count
          (Event.bidUpdate c it) = 1 :=
        List.count_eq_one_of_mem (hnd.map hinj)
          (List.mem_map_of_mem _ hc)
      have h0 : ([Event.bidSuccess origin it] : List Event).count
          (Event.bidUpdate c it) = 0 := by
        simp [List.count_singleton']
      rw [h1, h0]
    · rw [hE, List.count_append]
      have h0 : (subs.map (fun c => Event.bidUpdate c it)).count
          (Event.bidSuccess origin it) = 0 := by
        rw [List.count_eq_zero]
        intro hmem
        rcases List.mem_map.mp hmem with ⟨c, _, hc⟩
        exact Event.noConfusion hc
      have h1 : ([Event.bidSuccess origin it] : List Event).count
          (Event.bidSuccess origin it) = 1 := by
        simp [List.count_singleton']
      rw [h0, h1]
  · intro e items2 hpb
    simp [socketPlaceBid, htk, hta, htn, hpb]

/-- Witness for C6 at concrete inputs: an accepted bid of 150 on item 1 of
the seed store, with subscribers alice and bob and originator alice,
broadcasts one update each and one success to alice. -/
theorem c6_broadcast_fidelity_witness :
    (socketPlaceBid ["alice", "bob"] "alice" (seedItems 0)
        ⟨some (BidKey.num 1), some 150, some "Alice"⟩).1
      = [Event.bidUpdate "alice"
          { id := BidKey.num 1, title := "Vintage Camera", currentBid := 150,
            highestBidder := some "Alice", auctionEndsAt := 900000,
            image := "https://images.unsplash.com/photo-1516035069371-29a1b244cc32" },
         Event.bidUpdate "bob"
          { id := BidKey.num 1, title := "Vintage Camera", currentBid := 150,
            highestBidder := some "Alice", auctionEndsAt := 900000,
            image := "https://images.unsplash.com/photo-1516035069371-29a1b244cc32" },
         Event.bidSuccess "alice"
          { id := BidKey.num 1, title := "Vintage Camera", currentBid := 150,
            highestBidder := some "Alice", auctionEndsAt := 900000,
            image := "https://images.unsplash.com/photo-1516035069371-29a1b244cc32" }] :=
  ((c6_broadcast_fidelity ["alice", "bob"] "alice" (seedItems 0)
      (BidKey.num 1) 150 "Alice" (by decide) (by decide) (by decide)
      (by decide) (by decide)).1
    { id := BidKey.num 1, title := "Vintage Camera", currentBid := 150,
      highestBidder := some "Alice", auctionEndsAt := 900000,
      image := "https://images.unsplash.com/photo-1516035069371-29a1b244cc32" }
    (updateFirst (seedItems 0) (BidKey.num 1) 150 "Alice") (by decide)).1

/-- Observation relation for C7: two items are indistinguishable to the
admission logic when they agree on every field except `auctionEndsAt`. -/
def agreeExceptEndsAt (it1 it2 : Item) : Prop :=
  it1.id = it2.id ∧ it1.title = it2.title ∧ it1.currentBid = it2.currentBid
  ∧ it1.highestBidder = it2.highestBidder ∧ it1.image = it2.image

/-- Lifting of `agreeExceptEndsAt` to `placeBid` results: equal rejection
messages, or accepted snapshots agreeing on everything but `auctionEndsAt`. -/
def resultAgree : BidResult → BidResult → Prop
  | BidResult.accepted s1, BidResult.accepted s2 => agreeExceptEndsAt s1 s2
  | BidResult.rejected e1, BidResult.rejected e2 => e1 = e2
  | _, _ => False

/-- `find` behaves identically on stores agreeing up to `auctionEndsAt`. -/
theorem findItem_agree (k : BidKey) :
    ∀ l1 l2, List.Forall₂ agreeExceptEndsAt l1 l2 →
      (findItem l1 k = none ∧ findItem l2 k = none)
      ∨ (∃ it1 it2, findItem l1 k = some it1 ∧ findItem l2 k = some it2
          ∧ agreeExceptEndsAt it1 it2) := by
  intro l1 l2 h
  induction h with
  | nil => exact Or.inl ⟨rfl, rfl⟩
  | cons ha htail ih =>
    rename_i it1 it2 r1 r2
    by_cases hk : it1.id = k
    · have hk2 : it2.id = k := ha.1 ▸ hk
      exact Or.inr ⟨it1, it2, by simp [findItem, hk], by simp [findItem, hk2],
        ha⟩
    · have hk2 : ¬ it2.id = k := fun hc => hk (ha.1 ▸ hc)
      cases ih with
      | inl hnone =>
        exact Or.inl ⟨by simp [findItem, hk, hnone.1],
          by simp [findItem, hk2, hnone.2]⟩
      | inr hsome =>
        rcases hsome with ⟨j1, j2, hj1, hj2, hagj⟩
        exact Or.inr ⟨j1, j2, by simp [findItem, hk, hj1],
          by simp [findItem, hk2, hj2], hagj⟩

/-- The in-place mutation preserves agreement up to `auctionEndsAt`. -/
theorem updateFirst_agree (k : BidKey) (a : Int) (n : String) :
    ∀ l1 l2, List.Forall₂ agreeExceptEndsAt l1 l2 →
      List.Forall₂ agreeExceptEndsAt (updateFirst l1 k a n)
        (updateFirst l2 k a n) := by
  intro l1 l2 h
  induction h with
  | nil => exact List.Forall₂.nil
  | cons ha htail ih =>
    rename_i it1 it2 r1 r2
    by_cases hk : it1.id = k
    · have hk2 : it2.id = k := ha.1 ▸ hk
      simp only [updateFirst, hk, hk2, if_true]
      exact List.Forall₂.cons ⟨rfl, ha.2.1, rfl, rfl, ha.2.2.2.2⟩ htail
    · have hk2 : ¬ it2.id = k := fun hc => hk (ha.1 ▸ hc)
      simp only [updateFirst, hk, hk2, if_false]
      exact List.Forall₂.cons ha ih

/-- C7: the admission decision never consults `auctionEndsAt` (or a clock):
on two stores agreeing on everything but `auctionEndsAt`, `placeBid` yields
agreeing outcomes and agreeing stores; moreover every rejection it can ever
produce is `Item not found` or the too-low message — there is no
`AuctionClosed` rejection — so a bid strictly above the current bid is
accepted no matter what `auctionEndsAt` holds. -/
theorem c7_admission_ignores_deadline (items1 items2 : List Item)
    (k : BidKey) (a : Int) (n : String)
    (hag : List.Forall₂ agreeExceptEndsAt items1 items2) :
    (resultAgree (placeBid items1 k a n).1 (placeBid items2 k a n).1
      ∧ List.Forall₂ agreeExceptEndsAt (placeBid items1 k a n).2
          (placeBid items2 k a n).2)
    ∧ (∀ (items : List Item) (k2 : BidKey) (a2 : Int) (n2 : String) (e : String),
        (placeBid items k2 a2 n2).1 = BidResult.rejected e →
        e = "Item not found"
          ∨ ∃ c : Int, e = "Bid must be higher than current bid of $"
              ++ toString c)
    ∧ (∀ it, findItem items1 k = some it → it.currentBid < a →
        ∃ s, (placeBid items1 k a n).1 = BidResult.accepted s) := by
  refine ⟨?_, ?_, ?_⟩
  · rcases findItem_agree k items1 items2 hag with ⟨h1, h2⟩
      | ⟨it1, it2, h1, h2, hag12⟩
    · constructor
      · simp [placeBid, h1, h2, resultAgree]
      · have e1 : (placeBid items1 k a n).2 = items1 := by simp [placeBid, h1]
        have e2 : (placeBid items2 k a n).2 = items2 := by simp [placeBid, h2]
        rw [e1, e2]; exact hag
    · have hcb : it1.currentBid = it2.currentBid := hag12.2.2.1
      by_cases hle : a ≤ it1.currentBid
      · have hle2 : a ≤ it2.currentBid := hcb ▸ hle
        constructor
        · simp [placeBid, h1, h2, hle, hle2, resultAgree, hcb]
        · have e1 : (placeBid items1 k a n).2 = items1 := by
            simp [placeBid, h1, hle]
          have e2 : (placeBid items2 k a n).2 = items2 := by
            simp [placeBid, h2, hle2]
          rw [e1, e2]; exact hag
      · have hle2 : ¬ a ≤ it2.currentBid := fun hc => hle (hcb ▸ hc)
        constructor
        · simp only [placeBid, h1, h2, hle, hle2, if_false]
          exact ⟨hag12.1, hag12.2.1, rfl, rfl, hag12.2.2.2.2⟩
        · simp only [placeBid, h1, h2, hle, hle2, if_false]
          exact updateFirst_agree k a n items1 items2 hag
  · intro items k2 a2 n2 e he
    cases hfind : findItem items k2 with
    | none =>
      simp [placeBid, hfind] at he
      exact Or.inl he.symm
    | some it0 =>
      by_cases hle : a2 ≤ it0.currentBid
      · simp [placeBid, hfind, hle] at he
        exact Or.inr ⟨it0.currentBid, he.symm⟩
      · simp [placeBid, hfind, hle] at he
  · intro it hfind hlt
    have hle : ¬ a ≤ it.currentBid := not_le.mpr hlt
    exact ⟨{ it with currentBid := a, highestBidder := some n },
      by simp [placeBid, hfind, hle]⟩

/-- Witness for C7 at concrete inputs: the seed stores taken at clock 0 and
at clock 500 differ only in `auctionEndsAt`, and a bid of 150 on item 1
gets agreeing outcomes and stores. -/
theorem c7_admission_ignores_deadline_witness :
    resultAgree (placeBid (seedItems 0) (BidKey.num 1) 150 "Alice").1
        (placeBid (seedItems 500) (BidKey.num 1) 150 "Alice").1
      ∧ List.Forall₂ agreeExceptEndsAt
          (placeBid (seedItems 0) (BidKey.num 1) 150 "Alice").2
          (placeBid (seedItems 500) (BidKey.num 1) 150 "Alice").2 :=
  (c7_admission_ignores_deadline (seedItems 0) (seedItems 500)
      (BidKey.num 1) 150 "Alice"
      (by simp [seedItems, List.forall₂_cons, agreeExceptEndsAt])).1

/-- C10: item lookup uses strict equality, so a string `itemId` never
matches a numeric item id: `placeBid` rejects with `Item not found`, the
store is not mutated, and the socket handler emits only the one `bidError`
to the originator (no broadcast). -/
theorem c10_strict_equality_on_id (items : List Item) (s : String) (a : Int)
    (n : String) (subs : List String) (origin : String)
    (hids : ∀ it ∈ items, ∃ m : Int, it.id = BidKey.num m)
    (hs : s ≠ "") (ha0 : a ≠ 0) (hn : n ≠ "") :
    placeBid items (BidKey.str s) a n
      = (BidResult.rejected "Item not found", items)
    ∧ socketPlaceBid subs origin items ⟨some (BidKey.str s), some a, some n⟩
      = ([Event.bidError origin "Item not found" (some (BidKey.str s))],
         items) := by
  have hfindAll : ∀ l : List Item,
      (∀ it ∈ l, ∃ m : Int, it.id = BidKey.num m) →
      findItem l (BidKey.str s) = none := by
    intro l
    induction l with
    | nil => intro _; rfl
    | cons i rest ih =>
      intro hl
      rcases hl i (List.mem_cons_self i rest) with ⟨m, hm⟩
      have hne : ¬ i.id = BidKey.str s := by
        rw [hm]; intro hc; exact BidKey.noConfusion hc
      simp only [findItem, hne, if_false]
      exact ih (fun it hit => hl it (List.mem_cons_of_mem i hit))
  have hfind : findItem items (BidKey.str s) = none := hfindAll items hids
  have hpb : placeBid items (BidKey.str s) a n
      = (BidResult.rejected "Item not found", items) := by
    simp [placeBid, hfind]
  refine ⟨hpb, ?_⟩
  have htk : truthyKey (some (BidKey.str s)) = true := by
    simp [truthyKey]; exact hs
  have hta : truthyAmount (some a) = true := by
    simp [truthyAmount]; exact ha0
  have htn : truthyName (some n) = true := by
    simp [truthyName]; exact hn
  simp [socketPlaceBid, htk, hta, htn, hpb]

/-- Witness for C10 at concrete inputs: the string "1" finds nothing in the
seed store even though the item with numeric id 1 exists. -/
theorem c10_strict_equality_on_id_witness :
    (placeBid (seedItems 0) (BidKey.str "1") 150 "Alice"
        = (BidResult.rejected "Item not found", seedItems 0)
      ∧ socketPlaceBid ["alice"] "alice" (seedItems 0)
          ⟨some (BidKey.str "1"), some 150, some "Alice"⟩
        = ([Event.bidError "alice" "Item not found" (some (BidKey.str "1"))],
           seedItems 0))
    ∧ findItem (seedItems 0) (BidKey.num 1) ≠ none :=
  ⟨c10_strict_equality_on_id (seedItems 0) "1" 150 "Alice" ["alice"] "alice"
      (by
        intro it hit
        simp only [seedItems, List.mem_cons, List.not_mem_nil, or_false] at hit
        rcases hit with h | h | h | h <;> subst h <;> exact ⟨_, rfl⟩)
      (by decide) (by decide) (by decide),
   by decide⟩

/-- Phase of one in-flight `placeBid` call, delimited by the `await`
points of the handler: `pending` = parked at the spinlock's
`await setTimeout` (or not yet started); `critical` = fell through
`while (isBidLocked)` and executed `isBidLocked = true` (the test and the
set lie in one synchronous segment, so they are one atomic step);
`done` = executed the try-body and the `finally` release. In the actual
event loop the acquire and the body are a single synchronous segment;
splitting them here only adds interleavings, so every property proved over
`Step` also holds of the coarser real scheduler. -/
inductive TaskPhase where
  | pending
  | critical
  | done (outcome : BidResult)
deriving DecidableEq, Repr

/-- One concurrent `placeBid` invocation and its progress. -/
structure BidTask where
  req : Request
  phase : TaskPhase
deriving DecidableEq, Repr

/-- The shared state: the `auctionItems` array, the `isBidLocked` flag and
the in-flight invocations. -/
structure Sys where
  items : List Item
  lock : Bool
  tasks : List BidTask
deriving DecidableEq, Repr

/-- Interleaving semantics of the spinlock-guarded `placeBid`: a pending
task whose scheduled check sees `isBidLocked === false` sets the flag and
enters the critical section (one synchronous segment); a task inside the
critical section runs read-validate-write and the `finally` release (one
synchronous segment). A pending task scheduled while the flag is set
re-awaits, leaving the state unchanged, so that no-op is not a step. -/
inductive Step : Sys → Sys → Prop where
  | acquire (s : Sys) (i : Nat) (t : BidTask)
      (hget : s.tasks[i]? = some t)
      (hph : t.phase = TaskPhase.pending)
      (hlock : s.lock = false) :
      Step s { items := s.items, lock := true,
               tasks := s.tasks.set i
                 { req := t.req, phase := TaskPhase.critical } }
  | finish (s : Sys) (i : Nat) (t : BidTask)
      (hget : s.tasks[i]? = some t)
      (hph : t.phase = TaskPhase.critical) :
      Step s { items := (placeBid s.items t.req.itemId t.req.amount
                 t.req.bidderName).2,
               lock := false,
               tasks := s.tasks.set i
                 { req := t.req,
                   phase := TaskPhase.done (placeBid s.items t.req.itemId
                     t.req.amount t.req.bidderName).1 } }

/-- Initial state: the store as given, the lock free, every request pending. -/
def initSys (items : List Item) (reqs : List Request) : Sys :=
  { items := items, lock := false,
    tasks := reqs.map (fun r => { req := r, phase := TaskPhase.pending }) }

/-- Mutual-exclusion invariant: when the flag is clear nobody is in the
critical section, and at most one task is in the critical section. -/
def MutexInv (s : Sys) : Prop :=
  (s.lock = false →
    ∀ (i : Nat) (t : BidTask), s.tasks[i]? = some t →
      t.phase ≠ TaskPhase.critical)
  ∧ (∀ (i j : Nat) (ti tj : BidTask),
      s.tasks[i]? = some ti → s.tasks[j]? = some tj →
      ti.phase = TaskPhase.critical → tj.phase = TaskPhase.critical → i = j)

theorem mutexInv_init (items : List Item) (reqs : List Request) :
    MutexInv (initSys items reqs) := by
  have hph : ∀ (i : Nat) (t : BidTask),
      (initSys items reqs).tasks[i]? = some t →
      t.phase = TaskPhase.pending := by
    intro i t hget
    simp only [initSys, List.getElem?_map] at hget
    cases hr : reqs[i]? with
    | none => rw [hr] at hget; exact Option.noConfusion hget
    | some r =>
      rw [hr] at hget
      simp only [Option.map_some'] at hget
      rw [← Option.some_inj.mp hget]
  constructor
  · intro _ i t hget hc
    rw [hph i t hget] at hc
    exact TaskPhase.noConfusion hc
  · intro i j ti tj hi _ hip _
    rw [hph i ti hi] at hip
    exact absurd hip (by intro hc; exact TaskPhase.noConfusion hc)

theorem mutexInv_step (s s2 : Sys) (hinv : MutexInv s) (h : Step s s2) :
    MutexInv s2 := by
  cases h with
  | acquire i t hget hph hlock =>
    have hlen : i < s.tasks.length := by
      rcases List.getElem?_eq_some.mp hget with ⟨hl, _⟩
      exact hl
    constructor
    · intro hl
      exact absurd hl (by simp)
    · intro i2 j2 ti tj hi hj hip hjp
      have hone : ∀ (m : Nat) (tm : BidTask), (s.tasks.set i
          { req := t.req, phase := TaskPhase.critical })[m]? = some tm →
          tm.phase = TaskPhase.critical → m = i := by
        intro m tm hm hmp
        by_cases hmi : i = m
        · exact hmi.symm
        · rw [List.getElem?_set_ne hmi] at hm
          exact absurd hmp (hinv.1 hlock m tm hm)
      rw [hone i2 ti hi hip, hone j2 tj hj hjp]
  | finish i t hget hph =>
    have hlen : i < s.tasks.length := by
      rcases List.getElem?_eq_some.mp hget with ⟨hl, _⟩
      exact hl
    have hnone : ∀ (m : Nat) (tm : BidTask), (s.tasks.set i
        { req := t.req,
          phase := TaskPhase.done (placeBid s.items t.req.itemId
            t.req.amount t.req.bidderName).1 })[m]? = some tm →
        tm.phase ≠ TaskPhase.critical := by
      intro m tm hm hmp
      by_cases hmi : i = m
      · subst hmi
        rw [List.getElem?_set_eq_of_lt _ hlen] at hm
        rw [← Option.some_inj.mp hm] at hmp
        exact TaskPhase.noConfusion hmp
      · rw [List.getElem?_set_ne hmi] at hm
        exact hmi (hinv.2 i m t tm hget hm hph hmp)
    constructor
    · intro _ i2 t2 hget2
      exact hnone i2 t2 hget2
    · intro i2 j2 ti tj hi _ hip _
      exact absurd hip (hnone i2 ti hi)

/-- Every state reachable from an initial state satisfies the
mutual-exclusion invariant. -/
theorem mutexInv_reach (items : List Item) (reqs : List Request) (s : Sys)
    (h : Relation.ReflTransGen Step (initSys items reqs) s) : MutexInv s := by
  induction h with
  | refl => exact mutexInv_init items reqs
  | tail _ hbc ih => exact mutexInv_step _ _ ih hbc

/-- The item of the spec's concurrency scenario: seed
`{id: 1, currentBid: 100}` (item 1 of the catalog), with the bid state as
parameters. -/
def scenarioItem (bid : Int) (bidder : Option String) : Item :=
  { id := BidKey.num 1, title := "Vintage Camera", currentBid := bid,
    highestBidder := bidder, auctionEndsAt := 0,
    image := "https://images.unsplash.com/photo-1516035069371-29a1b244cc32" }

/-- Bidder A's concurrent request: 110 on item 1. -/
def reqA : Request :=
  { itemId := BidKey.num 1, amount := 110, bidderName := "A" }

/-- Bidder B's concurrent request: 105 on item 1. -/
def reqB : Request :=
  { itemId := BidKey.num 1, amount := 105, bidderName := "B" }

/-- The scenario's initial state: item 1 at 100, both requests pending. -/
def scenarioInit : Sys := initSys [scenarioItem 100 none] [reqA, reqB]

/-- All states reachable in the scenario (checked closed under `Step`
below): the two acquire orders, their commits, and the two terminal
states — A first (B then rejected against 110) or B first (B accepted at
105, then A accepted at 110). -/
def scenarioStates : List Sys :=
  [ ⟨[scenarioItem 100 none], false,
      [⟨reqA, TaskPhase.pending⟩, ⟨reqB, TaskPhase.pending⟩]⟩,
    ⟨[scenarioItem 100 none], true,
      [⟨reqA, TaskPhase.critical⟩, ⟨reqB, TaskPhase.pending⟩]⟩,
    ⟨[scenarioItem 100 none], true,
      [⟨reqA, TaskPhase.pending⟩, ⟨reqB, TaskPhase.critical⟩]⟩,
    ⟨[scenarioItem 110 (some "A")], false,
      [⟨reqA, TaskPhase.done (BidResult.accepted (scenarioItem 110 (some "A")))⟩,
       ⟨reqB, TaskPhase.pending⟩]⟩,
    ⟨[scenarioItem 105 (some "B")], false,
      [⟨reqA, TaskPhase.pending⟩,
       ⟨reqB, TaskPhase.done (BidResult.accepted (scenarioItem 105 (some "B")))⟩]⟩,
    ⟨[scenarioItem 110 (some "A")], true,
      [⟨reqA, TaskPhase.done (BidResult.accepted (scenarioItem 110 (some "A")))⟩,
       ⟨reqB, TaskPhase.critical⟩]⟩,
    ⟨[scenarioItem 105 (some "B")], true,
      [⟨reqA, TaskPhase.critical⟩,
       ⟨reqB, TaskPhase.done (BidResult.accepted (scenarioItem 105 (some "B")))⟩]⟩,
    ⟨[scenarioItem 110 (some "A")], false,
      [⟨reqA, TaskPhase.done (BidResult.accepted (scenarioItem 110 (some "A")))⟩,
       ⟨reqB, TaskPhase.done (BidResult.rejected
         "Bid must be higher than current bid of $110")⟩]⟩,
    ⟨[scenarioItem 110 (some "A")], false,
      [⟨reqA, TaskPhase.done (BidResult.accepted (scenarioItem 110 (some "A")))⟩,
       ⟨reqB, TaskPhase.done (BidResult.accepted (scenarioItem 105 (some "B")))⟩]⟩ ]

theorem scenarioStep_closed (s s2 : Sys) (hs : s ∈ scenarioStates)
    (h : Step s s2) : s2 ∈ scenarioStates := by
  cases h with
  | acquire i t hget hph hlock =>
    fin_cases hs <;>
      rcases i with _ | _ | i <;>
        simp only [List.getElem?_cons_zero, List.getElem?_cons_succ,
          List.getElem?_nil, Option.some.injEq] at hget <;>
        first
          | exact Option.noConfusion hget
          | (subst hget; revert hph hlock; decide)
  | finish i t hget hph =>
    fin_cases hs <;>
      rcases i with _ | _ | i <;>
        simp only [List.getElem?_cons_zero, List.getElem?_cons_succ,
          List.getElem?_nil, Option.some.injEq] at hget <;>
        first
          | exact Option.noConfusion hget
          | (subst hget; revert hph; decide)

theorem scenario_reach_mem (s : Sys)
    (h : Relation.ReflTransGen Step scenarioInit s) : s ∈ scenarioStates := by
  induction h with
  | refl => decide
  | tail _ hbc ih => exact scenarioStep_closed _ _ ih hbc

/-- Whether a task has completed (its `placeBid` call resolved). -/
def BidTask.isDone (t : BidTask) : Bool :=
  match t.phase with
  | TaskPhase.done _ => true
  | _ => false

/-- C3 (amended): the spinlock admits at most one request into the
read-validate-write critical section at any time, even for different
items; and in the scenario of item 1 at 100 with concurrent bids 110 (A)
and 105 (B), once both requests complete the store always holds currentBid
110 with highest bidder A — never below 110, a single deterministic final
winner. (Both bids, however, can be accepted along the way: see the
counterexample.) -/
theorem c3_mutual_exclusion_scenario :
    (∀ (items : List Item) (reqs : List Request) (s : Sys),
        Relation.ReflTransGen Step (initSys items reqs) s →
        ∀ (i j : Nat) (ti tj : BidTask),
          s.tasks[i]? = some ti → s.tasks[j]? = some tj →
          ti.phase = TaskPhase.critical → tj.phase = TaskPhase.critical →
          i = j)
    ∧ (∀ s : Sys, Relation.ReflTransGen Step scenarioInit s →
        (∀ t ∈ s.tasks, t.isDone = true) →
        s.items = [scenarioItem 110 (some "A")]) := by
  constructor
  · intro items reqs s h i j ti tj hi hj hip hjp
    exact (mutexInv_reach items reqs s h).2 i j ti tj hi hj hip hjp
  · intro s h hdone
    have hs := scenario_reach_mem s h
    revert hdone
    fin_cases hs <;> decide

/-- Counterexample to C3 as stated: when B's 105 enters the critical
section before A's 110, B is accepted at 105 and A is then accepted at
110 — a reachable complete execution of the scenario in which BOTH
concurrent bids are accepted, refuting "never both are accepted" (the
final state still holds 110/A). -/
theorem c3_counterexample :
    Relation.ReflTransGen Step scenarioInit
      ⟨[scenarioItem 110 (some "A")], false,
        [⟨reqA, TaskPhase.done (BidResult.accepted (scenarioItem 110 (some "A")))⟩,
         ⟨reqB, TaskPhase.done (BidResult.accepted (scenarioItem 105 (some "B")))⟩]⟩
    ∧ ([⟨reqA, TaskPhase.done (BidResult.accepted (scenarioItem 110 (some "A")))⟩,
        ⟨reqB, TaskPhase.done (BidResult.accepted (scenarioItem 105 (some "B")))⟩]
          : List BidTask).countP
        (fun t => match t.phase with
          | TaskPhase.done (BidResult.accepted _) => true
          | _ => false) = 2 := by
  constructor
  · have h1 : Step scenarioInit
        ⟨[scenarioItem 100 none], true,
          [⟨reqA, TaskPhase.pending⟩, ⟨reqB, TaskPhase.critical⟩]⟩ :=
      Step.acquire scenarioInit 1 ⟨reqB, TaskPhase.pending⟩ rfl rfl rfl
    have h2 : Step
        ⟨[scenarioItem 100 none], true,
          [⟨reqA, TaskPhase.pending⟩, ⟨reqB, TaskPhase.critical⟩]⟩
        ⟨[scenarioItem 105 (some "B")], false,
          [⟨reqA, TaskPhase.pending⟩,
           ⟨reqB, TaskPhase.done (BidResult.accepted
             (scenarioItem 105 (some "B")))⟩]⟩ :=
      Step.finish _ 1 ⟨reqB, TaskPhase.critical⟩ rfl rfl
    have h3 : Step
        ⟨[scenarioItem 105 (some "B")], false,
          [⟨reqA, TaskPhase.pending⟩,
           ⟨reqB, TaskPhase.done (BidResult.accepted
             (scenarioItem 105 (some "B")))⟩]⟩
        ⟨[scenarioItem 105 (some "B")], true,
          [⟨reqA, TaskPhase.critical⟩,
           ⟨reqB, TaskPhase.done (BidResult.accepted
             (scenarioItem 105 (some "B")))⟩]⟩ :=
      Step.acquire _ 0 ⟨reqA, TaskPhase.pending⟩ rfl rfl rfl
    have h4 : Step
        ⟨[scenarioItem 105 (some "B")], true,
          [⟨reqA, TaskPhase.critical⟩,
           ⟨reqB, TaskPhase.done (BidResult.accepted
             (scenarioItem 105 (some "B")))⟩]⟩
        ⟨[scenarioItem 110 (some "A")], false,
          [⟨reqA, TaskPhase.done (BidResult.accepted
             (scenarioItem 110 (some "A")))⟩,
           ⟨reqB, TaskPhase.done (BidResult.accepted
             (scenarioItem 105 (some "B")))⟩]⟩ :=
      Step.finish _ 0 ⟨reqA, TaskPhase.critical⟩ rfl rfl
    exact Relation.ReflTransGen.tail (Relation.ReflTransGen.tail
      (Relation.ReflTransGen.tail (Relation.ReflTransGen.single h1) h2) h3) h4
  · decide
